import Mathlib

/-!
A verification development for the scanning core of `missing_file_scanner.py`
(class `FileScannerThread`): the exclusion filter `should_exclude_folder`, the
file-presence matcher inlined in `run`, and the scan loop of `run` with its
three Qt signals (`progress_updated`, `folder_found`, `scan_completed`).

Python strings are modelled as `List Char`.  The filesystem is modelled by the
data the scan actually consumes: the eager `os.walk` enumeration is a list of
directory records, each carrying the outcome that `os.listdir` produces for it
during the check pass.  `os.path.normpath` is platform library code whose
output the scanner merely passes along, so it is kept abstract as a function
parameter `norm`.
-/

namespace MissingFileReport

/-- Models Python `str.lower` applied characterwise. -/
def pyLower (s : List Char) : List Char := s.map Char.toLower

/-- Models Python `str.strip` (drop whitespace from both ends). -/
def pyStrip (s : List Char) : List Char :=
  ((s.dropWhile Char.isWhitespace).reverse.dropWhile Char.isWhitespace).reverse

/-- Models `os.path.basename` on directory paths: the part after the last path
separator (`os.walk` paths contain no trailing separator). -/
def basename (p : List Char) : List Char :=
  (p.reverse.takeWhile fun c => !(c == '/' || c == '\\')).reverse

/-- `n` is an initial run of `h`.  Helper for modelling Python's substring
operator `in`. -/
def leadsIn : List Char → List Char → Bool
  | [], _ => true
  | _ :: _, [] => false
  | a :: as, b :: bs => a == b && leadsIn as bs

/-- Models Python's substring test `n in h`. -/
def occursIn (n : List Char) : List Char → Bool
  | [] => leadsIn n []
  | b :: bs => leadsIn n (b :: bs) || occursIn n bs

/-- `n` occurs contiguously inside `h`. -/
def ContainsSub (n h : List Char) : Prop := ∃ s t, h = s ++ n ++ t

/-- Index of the last occurrence of `c` in `p` (Python `str.rfind`), `none`
when `c` is absent. -/
def rfindIdx (c : Char) : List Char → Option Nat
  | [] => none
  | x :: xs =>
    match rfindIdx c xs with
    | some i => some (i + 1)
    | none => if x = c then some 0 else none

/-- The scanning loop inside `os.path.splitext`: Python walks the characters
in front of the last dot and splits at that dot as soon as it meets a non-dot
character; if they are all dots, the name is returned whole.  The list
argument is the prefix of `p` in front of `dotIndex`. -/
def splitextScan (p : List Char) (dotIndex : Nat) : List Char → List Char
  | [] => p
  | c :: rest => if c = '.' then splitextScan p dotIndex rest else p.take dotIndex

/-- Models `os.path.splitext(file)[0]` for a bare file name (names returned by
`os.listdir` contain no path separator). -/
def splitextRoot (p : List Char) : List Char :=
  match rfindIdx '.' p with
  | none => p
  | some d => splitextScan p d (p.take d)

/-- One entry of a directory listing: its name and whether
`os.path.isfile(os.path.join(folder_path, file))` holds for it. -/
structure Entry where
  name : List Char
  is_file : Bool
  deriving DecidableEq

/-- Outcome of `os.listdir` on one directory: a listing, a `PermissionError`
(the only exception class `run` handles locally, lines 97-99), or any other
exception (`FileNotFoundError`, other `OSError`, ...), which propagates to the
`except Exception` handler wrapped around the whole scan (lines 111-112). -/
inductive Listing where
  | ok (entries : List Entry)
  | permissionError
  | fatalError
  deriving DecidableEq

/-- A directory as produced by the eager `os.walk` enumeration pass, together
with what `os.listdir` yields for it during the check pass. -/
structure DirectoryRecord where
  path : List Char
  listing : Listing
  deriving DecidableEq

/-- The inputs of one `FileScannerThread.run` invocation; `all_dirs` is the
enumeration produced by the `os.walk` pass (lines 51-54), in order. -/
structure ScanInput where
  all_dirs : List DirectoryRecord
  filename : List Char
  exclusion_list : List (List Char)
  deriving DecidableEq

/-- The three Qt signals the scanner emits. -/
inductive Event where
  | progress_updated (current total : Nat)
  | folder_found (path : List Char)
  | scan_completed (missingCount : Nat)
  deriving DecidableEq

/-- `FileScannerThread.should_exclude_folder` (lines 25-42). -/
def should_exclude_folder (exclusion_list : List (List Char)) (folder_path : List Char) : Bool :=
  if exclusion_list.isEmpty then false
  else
    let folder_name := pyLower (basename folder_path)
    let folder_path_lower := pyLower folder_path
    exclusion_list.any fun exclusion_term =>
      let exclusion_lower := pyLower (pyStrip exclusion_term)
      !exclusion_lower.isEmpty &&
        (occursIn exclusion_lower folder_name || occursIn exclusion_lower folder_path_lower)

/-- The four matching criteria of `run`'s inner loop (lines 69-95) applied to
one file name; `search_term` is the already lowercased target. -/
def matchesTarget (search_term file : List Char) : Bool :=
  let name_without_ext := splitextRoot file
  let file_lower := pyLower file
  let name_without_ext_lower := pyLower name_without_ext
  if file_lower = search_term then true
  else if name_without_ext_lower = search_term then true
  else if occursIn search_term file_lower then true
  else if occursIn search_term name_without_ext_lower then true
  else false

/-- The `file_found` computation of `run` for one listed directory (lines
63-95): some listed entry is a regular file and matches the target. -/
def isFileFoundIn (filename : List Char) (entries : List Entry) : Bool :=
  entries.any fun e => e.is_file && matchesTarget (pyLower filename) e.name

/-- The main loop of `FileScannerThread.run` (lines 58-107).  Returns the
`missing_folders` accumulator, the emitted events, and whether a
non-`PermissionError` exception escaped the loop (aborting the `try` block).
An excluded directory and a `PermissionError` directory are `continue`d past;
in both cases the trailing `progress_updated` emit of the loop body is
skipped. -/
def runLoop (norm : List Char → List Char) (filename : List Char)
    (exclusion_list : List (List Char)) (total : Nat) :
    Nat → List DirectoryRecord → List (List Char) × List Event × Bool
  | _, [] => ([], [], false)
  | i, d :: ds =>
    if should_exclude_folder exclusion_list d.path then
      runLoop norm filename exclusion_list total (i + 1) ds
    else
      match d.listing with
      | Listing.permissionError => runLoop norm filename exclusion_list total (i + 1) ds
      | Listing.fatalError => ([], [], true)
      | Listing.ok entries =>
        let r := runLoop norm filename exclusion_list total (i + 1) ds
        if isFileFoundIn filename entries then
          (r.1, Event.progress_updated (i + 1) total :: r.2.1, r.2.2)
        else
          (norm d.path :: r.1,
            Event.folder_found (norm d.path) :: Event.progress_updated (i + 1) total :: r.2.1,
            r.2.2)

/-- `FileScannerThread.run` (lines 44-112): loop over the enumeration with
`total_dirs = len(all_dirs)`, then emit `scan_completed` with
`len(missing_folders)` — unless an exception aborted the loop, in which case
the outer handler merely prints and no completion signal is ever emitted. -/
def run (norm : List Char → List Char) (inp : ScanInput) : List (List Char) × List Event :=
  let r := runLoop norm inp.filename inp.exclusion_list inp.all_dirs.length 0 inp.all_dirs
  if r.2.2 then (r.1, r.2.1)
  else (r.1, r.2.1 ++ [Event.scan_completed r.1.length])

/-- The `(current, total)` payloads of the progress events, in order. -/
def progressList (evs : List Event) : List (Nat × Nat) :=
  evs.filterMap fun e =>
    match e with
    | Event.progress_updated c t => some (c, t)
    | _ => none

/-- The path payloads of the folder-found events, in order. -/
def folderFoundList (evs : List Event) : List (List Char) :=
  evs.filterMap fun e =>
    match e with
    | Event.folder_found p => some p
    | _ => none

/-- The payloads of the completion events, in order. -/
def completionList (evs : List Event) : List Nat :=
  evs.filterMap fun e =>
    match e with
    | Event.scan_completed k => some k
    | _ => none

/-- The listing succeeded. -/
def isOkListing : Listing → Bool
  | Listing.ok _ => true
  | _ => false

/-- The listing raised `PermissionError`. -/
def isPermListing : Listing → Bool
  | Listing.permissionError => true
  | _ => false

/-- The listing raised something other than `PermissionError`. -/
def isFatalListing : Listing → Bool
  | Listing.fatalError => true
  | _ => false

/-- The directory is listed successfully and the target is not found in it. -/
def isMissingHere (filename : List Char) (d : DirectoryRecord) : Bool :=
  match d.listing with
  | Listing.ok entries => !isFileFoundIn filename entries
  | _ => false

/-- The scan loop aborts at this directory: it is not excluded (so it does get
listed) and its listing raises a non-`PermissionError` exception. -/
def abortsAt (excl : List (List Char)) (d : DirectoryRecord) : Bool :=
  !should_exclude_folder excl d.path && isFatalListing d.listing

/-- The prefix of the enumeration the loop actually reaches: everything
strictly before the first aborting directory. -/
def upToFatal (excl : List (List Char)) : List DirectoryRecord → List DirectoryRecord
  | [] => []
  | d :: ds => if abortsAt excl d then [] else d :: upToFatal excl ds

/-- Some directory aborts the scan loop. -/
def hasFatal (excl : List (List Char)) (ds : List DirectoryRecord) : Bool :=
  ds.any (abortsAt excl)

/-- Written from the spec's words, for comparison with `run`: the claimed
missing-folder sequence — every enumerated directory that is not excluded, not
I/O-errored, and whose listing fails the presence check, normalized, in
enumeration order. -/
def specMissingFolders (norm : List Char → List Char) (inp : ScanInput) : List (List Char) :=
  (inp.all_dirs.filter fun d =>
      !should_exclude_folder inp.exclusion_list d.path && isMissingHere inp.filename d).map
    fun d => norm d.path

/-- Written from the spec's words, for comparison with `splitextRoot`:
extension stripping as claim C9 states it — everything before the last `.`,
or the whole name when no `.` is present. -/
def specStripExt (p : List Char) : List Char :=
  match rfindIdx '.' p with
  | none => p
  | some d => p.take d

/-- The event-order shape the spec claims for a whole run: some
progress/folder-found events followed by exactly one completion event. -/
def StrictEventOrder (evs : List Event) : Prop :=
  ∃ pre k, evs = pre ++ [Event.scan_completed k] ∧
    ∀ e ∈ pre, (∃ c t, e = Event.progress_updated c t) ∨ ∃ p, e = Event.folder_found p

/-- `d` is the position of the last `.` of `p`. -/
def LastDotAt (p : List Char) (d : Nat) : Prop :=
  p.get? d = some '.' ∧ ∀ j, j < p.length → d < j → p.get? j ≠ some '.'

instance instDecidableLastDotAt (p : List Char) (d : Nat) : Decidable (LastDotAt p d) := by
  unfold LastDotAt
  infer_instance

theorem leadsIn_iff : ∀ n h : List Char, leadsIn n h = true ↔ ∃ t, h = n ++ t
  | [], h => by simp [leadsIn]
  | a :: as, [] => by simp [leadsIn]
  | a :: as, b :: bs => by
    simp only [leadsIn, Bool.and_eq_true, beq_iff_eq, List.cons_append, List.cons.injEq]
    rw [leadsIn_iff as bs]
    constructor
    · rintro ⟨rfl, t, rfl⟩
      exact ⟨t, rfl, rfl⟩
    · rintro ⟨t, rfl, rfl⟩
      exact ⟨rfl, t, rfl⟩

theorem occursIn_iff : ∀ n h : List Char, occursIn n h = true ↔ ContainsSub n h
  | n, [] => by
    cases n with
    | nil => exact iff_of_true rfl ⟨[], [], rfl⟩
    | cons a as =>
      simp only [occursIn, leadsIn, ContainsSub]
      constructor
      · intro h
        cases h
      · rintro ⟨s, t, hst⟩
        exact absurd hst.symm (by simp)
  | n, b :: bs => by
    simp only [occursIn, Bool.or_eq_true, leadsIn_iff, occursIn_iff n bs, ContainsSub]
    constructor
    · rintro (⟨t, ht⟩ | ⟨s, t, rfl⟩)
      · exact ⟨[], t, by simpa using ht⟩
      · exact ⟨b :: s, t, rfl⟩
    · rintro ⟨s, t, hst⟩
      cases s with
      | nil => exact Or.inl ⟨t, by simpa using hst⟩
      | cons x xs =>
        simp only [List.cons_append, List.cons.injEq] at hst
        exact Or.inr ⟨xs, t, hst.2⟩

theorem pyLower_eq_nil {s : List Char} : pyLower s = [] ↔ s = [] := by
  simp [pyLower]

theorem matchesTarget_iff (s f : List Char) :
    matchesTarget s f = true ↔
      pyLower f = s ∨ pyLower (splitextRoot f) = s ∨
        ContainsSub s (pyLower f) ∨ ContainsSub s (pyLower (splitextRoot f)) := by
  unfold matchesTarget
  dsimp only
  split_ifs with h1 h2 h3 h4
  · exact iff_of_true rfl (Or.inl h1)
  · exact iff_of_true rfl (Or.inr (Or.inl h2))
  · exact iff_of_true rfl (Or.inr (Or.inr (Or.inl ((occursIn_iff _ _).1 h3))))
  · exact iff_of_true rfl (Or.inr (Or.inr (Or.inr ((occursIn_iff _ _).1 h4))))
  · refine iff_of_false (by simp) ?_
    rintro (h | h | h | h)
    · exact h1 h
    · exact h2 h
    · exact h3 ((occursIn_iff _ _).2 h)
    · exact h4 ((occursIn_iff _ _).2 h)

theorem splitextScan_eq (p : List Char) (d : Nat) :
    ∀ l, splitextScan p d l = if l.all (fun c => c == '.') then p else p.take d
  | [] => by simp [splitextScan]
  | c :: rest => by
    by_cases hc : c = '.'
    · subst hc
      simp [splitextScan, splitextScan_eq p d rest]
    · simp [splitextScan, hc]

theorem rfindIdx_eq_none {c : Char} : ∀ {p : List Char}, c ∉ p → rfindIdx c p = none
  | [], _ => rfl
  | x :: xs, h => by
    simp only [List.mem_cons, not_or] at h
    have hxs : rfindIdx c xs = none := rfindIdx_eq_none h.2
    simp [rfindIdx, hxs, Ne.symm h.1]

theorem rfindIdx_of_lastDot : ∀ (p : List Char) (d : Nat), LastDotAt p d →
    rfindIdx '.' p = some d
  | [], d, h => by
    exact absurd h.1 (by simp)
  | x :: xs, 0, h => by
    have hx : x = '.' := by simpa using h.1
    have hnone : rfindIdx '.' xs = none := by
      apply rfindIdx_eq_none
      intro hmem
      obtain ⟨k, hk⟩ := List.mem_iff_get?.1 hmem
      have hklen : k < xs.length := by
        rcases List.get?_eq_some.1 hk with ⟨hlt, _⟩
        exact hlt
      exact h.2 (k + 1) (by simpa using hklen) (Nat.succ_pos k) (by simpa using hk)
    simp [rfindIdx, hnone, hx]
  | x :: xs, d + 1, h => by
    have hxs : LastDotAt xs d := by
      refine ⟨by simpa using h.1, ?_⟩
      intro j hj hdj
      have := h.2 (j + 1) (by simpa using hj) (by omega)
      simpa using this
    simp [rfindIdx, rfindIdx_of_lastDot xs d hxs]

theorem isOkListing_ok (es : List Entry) : isOkListing (Listing.ok es) = true := rfl

theorem isOkListing_perm : isOkListing Listing.permissionError = false := rfl

theorem isOkListing_fatal : isOkListing Listing.fatalError = false := rfl

theorem isFatalListing_ok (es : List Entry) : isFatalListing (Listing.ok es) = false := rfl

theorem isFatalListing_perm : isFatalListing Listing.permissionError = false := rfl

theorem isFatalListing_fatal : isFatalListing Listing.fatalError = true := rfl

theorem isMissingHere_of_listing {fn : List Char} {d : DirectoryRecord} {es : List Entry}
    (h : d.listing = Listing.ok es) : isMissingHere fn d = !isFileFoundIn fn es := by
  simp [isMissingHere, h]

theorem isMissingHere_of_perm {fn : List Char} {d : DirectoryRecord}
    (h : d.listing = Listing.permissionError) : isMissingHere fn d = false := by
  simp [isMissingHere, h]

theorem isMissingHere_of_fatal {fn : List Char} {d : DirectoryRecord}
    (h : d.listing = Listing.fatalError) : isMissingHere fn d = false := by
  simp [isMissingHere, h]

theorem isOkListing_of_listing {d : DirectoryRecord} {es : List Entry}
    (h : d.listing = Listing.ok es) : isOkListing d.listing = true := by
  simp [isOkListing, h]

theorem progressList_nil : progressList [] = [] := rfl

theorem progressList_cons_progress (c t : Nat) (evs : List Event) :
    progressList (Event.progress_updated c t :: evs) = (c, t) :: progressList evs := rfl

theorem progressList_cons_folder (p : List Char) (evs : List Event) :
    progressList (Event.folder_found p :: evs) = progressList evs := rfl

theorem progressList_cons_completed (k : Nat) (evs : List Event) :
    progressList (Event.scan_completed k :: evs) = progressList evs := rfl

theorem progressList_append (l₁ l₂ : List Event) :
    progressList (l₁ ++ l₂) = progressList l₁ ++ progressList l₂ :=
  List.filterMap_append l₁ l₂ _

theorem folderFoundList_nil : folderFoundList [] = [] := rfl

theorem folderFoundList_cons_progress (c t : Nat) (evs : List Event) :
    folderFoundList (Event.progress_updated c t :: evs) = folderFoundList evs := rfl

theorem folderFoundList_cons_folder (p : List Char) (evs : List Event) :
    folderFoundList (Event.folder_found p :: evs) = p :: folderFoundList evs := rfl

theorem folderFoundList_cons_completed (k : Nat) (evs : List Event) :
    folderFoundList (Event.scan_completed k :: evs) = folderFoundList evs := rfl

theorem folderFoundList_append (l₁ l₂ : List Event) :
    folderFoundList (l₁ ++ l₂) = folderFoundList l₁ ++ folderFoundList l₂ :=
  List.filterMap_append l₁ l₂ _

theorem completionList_nil : completionList [] = [] := rfl

theorem completionList_cons_progress (c t : Nat) (evs : List Event) :
    completionList (Event.progress_updated c t :: evs) = completionList evs := rfl

theorem completionList_cons_folder (p : List Char) (evs : List Event) :
    completionList (Event.folder_found p :: evs) = completionList evs := rfl

theorem completionList_cons_completed (k : Nat) (evs : List Event) :
    completionList (Event.scan_completed k :: evs) = k :: completionList evs := rfl

theorem completionList_append (l₁ l₂ : List Event) :
    completionList (l₁ ++ l₂) = completionList l₁ ++ completionList l₂ :=
  List.filterMap_append l₁ l₂ _

theorem upToFatal_length_le (excl : List (List Char)) :
    ∀ ds : List DirectoryRecord, (upToFatal excl ds).length ≤ ds.length
  | [] => Nat.le_refl 0
  | d :: ds => by
    by_cases h : abortsAt excl d = true
    · simp [upToFatal, h]
    · simp only [upToFatal, h, if_false, List.length_cons]
      exact Nat.succ_le_succ (upToFatal_length_le excl ds)

theorem upToFatal_of_not_fatal {excl : List (List Char)} :
    ∀ ds : List DirectoryRecord, hasFatal excl ds = false → upToFatal excl ds = ds
  | [], _ => rfl
  | d :: ds, h => by
    simp only [hasFatal, List.any_cons, Bool.or_eq_false_iff] at h
    simp [upToFatal, h.1, upToFatal_of_not_fatal ds h.2]

theorem mem_enumFrom_bounds {α : Type} :
    ∀ (l : List α) (n : Nat) (q : Nat × α), q ∈ List.enumFrom n l → n ≤ q.1 ∧ q.1 < n + l.length
  | [], _, _, h => absurd h (by simp [List.enumFrom])
  | a :: l, n, q, h => by
    rcases List.mem_cons.1 h with rfl | h
    · simp
    · have := mem_enumFrom_bounds l (n + 1) q h
      constructor
      · omega
      · simpa [Nat.add_comm, Nat.add_assoc, Nat.add_left_comm] using this.2

theorem pairwise_enumFrom {α : Type} :
    ∀ (l : List α) (n : Nat), (List.enumFrom n l).Pairwise fun a b => a.1 < b.1
  | [], _ => List.Pairwise.nil
  | a :: l, n => by
    refine List.Pairwise.cons ?_ (pairwise_enumFrom l (n + 1))
    intro q hq
    have := (mem_enumFrom_bounds l (n + 1) q hq).1
    omega

theorem enumFrom_append {α : Type} :
    ∀ (l₁ l₂ : List α) (n : Nat),
      List.enumFrom n (l₁ ++ l₂) = List.enumFrom n l₁ ++ List.enumFrom (n + l₁.length) l₂
  | [], l₂, n => by simp [List.enumFrom]
  | a :: l₁, l₂, n => by
    have harith : n + (l₁.length + 1) = n + 1 + l₁.length := by omega
    simp [List.cons_append, List.enumFrom, enumFrom_append l₁ l₂ (n + 1),
      List.length_cons, harith]

theorem runLoop_missing (norm : List Char → List Char) (fn : List Char)
    (excl : List (List Char)) (t : Nat) :
    ∀ (i : Nat) (ds : List DirectoryRecord),
      (runLoop norm fn excl t i ds).1 =
        ((upToFatal excl ds).filter fun d =>
            !should_exclude_folder excl d.path && isMissingHere fn d).map fun d => norm d.path
  | _, [] => rfl
  | i, d :: ds => by
    have IH := runLoop_missing norm fn excl t (i + 1) ds
    cases hEx : should_exclude_folder excl d.path with
    | true =>
      simp [runLoop, hEx, upToFatal, abortsAt, List.filter_cons, IH]
    | false =>
      cases hL : d.listing with
      | permissionError =>
        simp [runLoop, hEx, hL, upToFatal, abortsAt, isFatalListing_perm,
          isMissingHere_of_perm hL, List.filter_cons, IH]
      | fatalError =>
        simp [runLoop, hEx, hL, upToFatal, abortsAt, isFatalListing_fatal]
      | ok entries =>
        by_cases hF : isFileFoundIn fn entries = true
        · simp [runLoop, hEx, hL, hF, upToFatal, abortsAt, isFatalListing_ok,
            isMissingHere_of_listing hL, List.filter_cons, IH]
        · simp [runLoop, hEx, hL, hF, upToFatal, abortsAt, isFatalListing_ok,
            isMissingHere_of_listing hL, List.filter_cons, IH]

theorem runLoop_fatal (norm : List Char → List Char) (fn : List Char)
    (excl : List (List Char)) (t : Nat) :
    ∀ (i : Nat) (ds : List DirectoryRecord),
      (runLoop norm fn excl t i ds).2.2 = hasFatal excl ds
  | _, [] => rfl
  | i, d :: ds => by
    have IH := runLoop_fatal norm fn excl t (i + 1) ds
    cases hEx : should_exclude_folder excl d.path with
    | true =>
      simp [runLoop, hEx, hasFatal, List.any_cons, abortsAt, IH]
    | false =>
      cases hL : d.listing with
      | permissionError =>
        simp [runLoop, hEx, hL, hasFatal, List.any_cons, abortsAt, isFatalListing_perm, IH]
      | fatalError =>
        simp [runLoop, hEx, hL, hasFatal, List.any_cons, abortsAt, isFatalListing_fatal]
      | ok entries =>
        by_cases hF : isFileFoundIn fn entries = true
        · simp [runLoop, hEx, hL, hF, hasFatal, List.any_cons, abortsAt, isFatalListing_ok, IH]
        · simp [runLoop, hEx, hL, hF, hasFatal, List.any_cons, abortsAt, isFatalListing_ok, IH]

theorem runLoop_progress (norm : List Char → List Char) (fn : List Char)
    (excl : List (List Char)) (t : Nat) :
    ∀ (i : Nat) (ds : List DirectoryRecord),
      progressList (runLoop norm fn excl t i ds).2.1 =
        ((List.enumFrom i (upToFatal excl ds)).filter fun q =>
            !should_exclude_folder excl q.2.path && isOkListing q.2.listing).map
          fun q => (q.1 + 1, t)
  | _, [] => rfl
  | i, d :: ds => by
    have IH := runLoop_progress norm fn excl t (i + 1) ds
    cases hEx : should_exclude_folder excl d.path with
    | true =>
      simp [runLoop, hEx, upToFatal, abortsAt, List.enumFrom, List.filter_cons, IH]
    | false =>
      cases hL : d.listing with
      | permissionError =>
        simp [runLoop, hEx, hL, upToFatal, abortsAt, isFatalListing_perm, isOkListing_perm,
          List.enumFrom, List.filter_cons, IH]
      | fatalError =>
        simp [runLoop, hEx, hL, upToFatal, abortsAt, isFatalListing_fatal, progressList_nil]
      | ok entries =>
        by_cases hF : isFileFoundIn fn entries = true
        · simp [runLoop, hEx, hL, hF, upToFatal, abortsAt, isFatalListing_ok,
            isOkListing_ok, List.enumFrom, List.filter_cons,
            progressList_cons_progress, progressList_cons_folder, IH]
        · simp [runLoop, hEx, hL, hF, upToFatal, abortsAt, isFatalListing_ok,
            isOkListing_ok, List.enumFrom, List.filter_cons,
            progressList_cons_progress, progressList_cons_folder, IH]

theorem runLoop_folderFound (norm : List Char → List Char) (fn : List Char)
    (excl : List (List Char)) (t : Nat) :
    ∀ (i : Nat) (ds : List DirectoryRecord),
      folderFoundList (runLoop norm fn excl t i ds).2.1 = (runLoop norm fn excl t i ds).1
  | _, [] => rfl
  | i, d :: ds => by
    have IH := runLoop_folderFound norm fn excl t (i + 1) ds
    cases hEx : should_exclude_folder excl d.path with
    | true =>
      simp [runLoop, hEx, IH]
    | false =>
      cases hL : d.listing with
      | permissionError =>
        simp [runLoop, hEx, hL, IH]
      | fatalError =>
        simp [runLoop, hEx, hL, folderFoundList_nil]
      | ok entries =>
        by_cases hF : isFileFoundIn fn entries = true
        · simp [runLoop, hEx, hL, hF, folderFoundList_cons_progress,
            folderFoundList_cons_folder, IH]
        · simp [runLoop, hEx, hL, hF, folderFoundList_cons_progress,
            folderFoundList_cons_folder, IH]

theorem runLoop_completion (norm : List Char → List Char) (fn : List Char)
    (excl : List (List Char)) (t : Nat) :
    ∀ (i : Nat) (ds : List DirectoryRecord),
      completionList (runLoop norm fn excl t i ds).2.1 = []
  | _, [] => rfl
  | i, d :: ds => by
    have IH := runLoop_completion norm fn excl t (i + 1) ds
    cases hEx : should_exclude_folder excl d.path with
    | true =>
      simp [runLoop, hEx, IH]
    | false =>
      cases hL : d.listing with
      | permissionError =>
        simp [runLoop, hEx, hL, IH]
      | fatalError =>
        simp [runLoop, hEx, hL, completionList_nil]
      | ok entries =>
        by_cases hF : isFileFoundIn fn entries = true
        · simp [runLoop, hEx, hL, hF, completionList_cons_progress,
            completionList_cons_folder, IH]
        · simp [runLoop, hEx, hL, hF, completionList_cons_progress,
            completionList_cons_folder, IH]

theorem runLoop_shape (norm : List Char → List Char) (fn : List Char)
    (excl : List (List Char)) (t : Nat) :
    ∀ (i : Nat) (ds : List DirectoryRecord),
      ∀ e ∈ (runLoop norm fn excl t i ds).2.1,
        (∃ c t', e = Event.progress_updated c t') ∨ ∃ p, e = Event.folder_found p
  | _, [], e, he => absurd he (by simp [runLoop])
  | i, d :: ds, e, he => by
    have IH := runLoop_shape norm fn excl t (i + 1) ds
    cases hEx : should_exclude_folder excl d.path with
    | true =>
      rw [runLoop] at he
      simp only [hEx, if_true] at he
      exact IH e he
    | false =>
      cases hL : d.listing with
      | permissionError =>
        rw [runLoop] at he
        simp only [hEx, hL, Bool.false_eq_true, if_false] at he
        exact IH e he
      | fatalError =>
        rw [runLoop] at he
        simp only [hEx, hL, Bool.false_eq_true, if_false] at he
        exact absurd he (by simp)
      | ok entries =>
        rw [runLoop] at he
        simp only [hEx, hL, Bool.false_eq_true, if_false] at he
        by_cases hF : isFileFoundIn fn entries = true
        · simp only [hF, if_true, List.mem_cons] at he
          rcases he with rfl | he
          · exact Or.inl ⟨i + 1, t, rfl⟩
          · exact IH e he
        · simp only [hF, Bool.false_eq_true, if_false, List.mem_cons] at he
          rcases he with rfl | rfl | he
          · exact Or.inr ⟨norm d.path, rfl⟩
          · exact Or.inl ⟨i + 1, t, rfl⟩
          · exact IH e he

theorem isFileFoundIn_cons (fn : List Char) (e : Entry) (es : List Entry) :
    isFileFoundIn fn (e :: es) =
      ((e.is_file && matchesTarget (pyLower fn) e.name) || isFileFoundIn fn es) := rfl

theorem run_missing (norm : List Char → List Char) (inp : ScanInput) :
    (run norm inp).1 =
      specMissingFolders norm
        ⟨upToFatal inp.exclusion_list inp.all_dirs, inp.filename, inp.exclusion_list⟩ := by
  unfold run specMissingFolders
  dsimp only
  split <;> exact runLoop_missing norm inp.filename inp.exclusion_list _ 0 inp.all_dirs

theorem run_folderFound (norm : List Char → List Char) (inp : ScanInput) :
    folderFoundList (run norm inp).2 = (run norm inp).1 := by
  unfold run
  dsimp only
  split
  · exact runLoop_folderFound norm inp.filename inp.exclusion_list _ 0 inp.all_dirs
  · rw [folderFoundList_append, folderFoundList_cons_completed, folderFoundList_nil,
      List.append_nil]
    exact runLoop_folderFound norm inp.filename inp.exclusion_list _ 0 inp.all_dirs

theorem run_progress (norm : List Char → List Char) (inp : ScanInput) :
    progressList (run norm inp).2 =
      ((List.enumFrom 0 (upToFatal inp.exclusion_list inp.all_dirs)).filter fun q =>
          !should_exclude_folder inp.exclusion_list q.2.path && isOkListing q.2.listing).map
        fun q => (q.1 + 1, inp.all_dirs.length) := by
  unfold run
  dsimp only
  split
  · exact runLoop_progress norm inp.filename inp.exclusion_list _ 0 inp.all_dirs
  · rw [progressList_append, progressList_cons_completed, progressList_nil, List.append_nil]
    exact runLoop_progress norm inp.filename inp.exclusion_list _ 0 inp.all_dirs

theorem run_completionList (norm : List Char → List Char) (inp : ScanInput) :
    completionList (run norm inp).2 =
      if hasFatal inp.exclusion_list inp.all_dirs then [] else [(run norm inp).1.length] := by
  unfold run
  dsimp only
  rw [runLoop_fatal norm inp.filename inp.exclusion_list _ 0 inp.all_dirs]
  split
  · next h =>
    simp only [h, if_true]
    exact runLoop_completion norm inp.filename inp.exclusion_list _ 0 inp.all_dirs
  · next h =>
    simp only [Bool.not_eq_true] at h
    simp only [h, if_false]
    rw [completionList_append, completionList_cons_completed, completionList_nil,
      runLoop_completion norm inp.filename inp.exclusion_list _ 0 inp.all_dirs]
    rfl

/-- C1, counterexample: on an enumeration whose first directory raises a
non-`PermissionError` listing failure, the scan aborts, so the later directory
`y` — not excluded, not errored, listing without the target — is never
reported, while the claimed set contains it. -/
theorem C1_missing_folders_cex :
    (run id ⟨[⟨['x'], Listing.fatalError⟩, ⟨['y'], Listing.ok []⟩], ['a'], []⟩).1 ≠
      specMissingFolders id ⟨[⟨['x'], Listing.fatalError⟩, ⟨['y'], Listing.ok []⟩], ['a'], []⟩ := by
  decide

/-- C1, amended: the accumulated `missing_folders` (also emitted as
folder-found events, in the same order) are exactly the enumerated directories
up to the first directory whose listing fails with a non-`PermissionError`
exception — restricted to those that are not excluded, not
permission-errored, and whose immediate file listing fails the presence
check — each normalized, in enumeration order. -/
theorem C1_missing_folders (norm : List Char → List Char) (inp : ScanInput) :
    (run norm inp).1 =
      specMissingFolders norm
        ⟨upToFatal inp.exclusion_list inp.all_dirs, inp.filename, inp.exclusion_list⟩ ∧
    folderFoundList (run norm inp).2 = (run norm inp).1 :=
  ⟨run_missing norm inp, run_folderFound norm inp⟩

/-- C2: the presence check holds iff some listed regular file matches one of
the four rules — exact full name, exact extension-stripped name, substring of
the full name, substring of the extension-stripped name — all compared
case-insensitively. -/
theorem C2_matcher_iff (fn : List Char) (entries : List Entry) :
    isFileFoundIn fn entries = true ↔
      ∃ e ∈ entries, e.is_file = true ∧
        (pyLower e.name = pyLower fn ∨ pyLower (splitextRoot e.name) = pyLower fn ∨
          ContainsSub (pyLower fn) (pyLower e.name) ∨
          ContainsSub (pyLower fn) (pyLower (splitextRoot e.name))) := by
  simp only [isFileFoundIn, List.any_eq_true, Bool.and_eq_true, matchesTarget_iff]

/-- C3: `should_exclude_folder` holds iff the folder's base name or its full
path contains some trimmed, non-empty exclusion term as a case-insensitive
substring; on the empty exclusion list it is always false. -/
theorem C3_should_exclude_iff (excl : List (List Char)) (path : List Char) :
    (should_exclude_folder excl path = true ↔
      ∃ term ∈ excl, pyStrip term ≠ [] ∧
        (ContainsSub (pyLower (pyStrip term)) (pyLower (basename path)) ∨
          ContainsSub (pyLower (pyStrip term)) (pyLower path))) ∧
    should_exclude_folder [] path = false := by
  refine ⟨?_, rfl⟩
  unfold should_exclude_folder
  dsimp only
  by_cases hE : excl.isEmpty = true
  · rw [List.isEmpty_iff.1 hE]
    simp
  · rw [Bool.not_eq_true] at hE
    rw [if_neg (by simp [hE])]
    rw [List.any_eq_true]
    constructor
    · rintro ⟨term, hmem, hterm⟩
      rw [Bool.and_eq_true, Bool.or_eq_true] at hterm
      obtain ⟨hne, hor⟩ := hterm
      refine ⟨term, hmem, ?_, ?_⟩
      · intro hnil
        rw [hnil] at hne
        simp [pyLower] at hne
      · rcases hor with h | h
        · exact Or.inl ((occursIn_iff _ _).1 h)
        · exact Or.inr ((occursIn_iff _ _).1 h)
    · rintro ⟨term, hmem, hne, hor⟩
      refine ⟨term, hmem, ?_⟩
      rw [Bool.and_eq_true, Bool.or_eq_true]
      refine ⟨?_, ?_⟩
      · simp [pyLower, hne]
      · rcases hor with h | h
        · exact Or.inl ((occursIn_iff _ _).2 h)
        · exact Or.inr ((occursIn_iff _ _).2 h)

/-- C4, counterexample: a single-directory enumeration whose directory is
excluded; its enumeration position 0 yields no `(1, 1)` progress event, while
the claim demands one for every enumerated directory. -/
theorem C4_progress_cex :
    (⟨[⟨['x'], Listing.ok []⟩], ['t'], [['x']]⟩ : ScanInput).all_dirs.length = 1 ∧
    should_exclude_folder [['x']] ['x'] = true ∧
    Event.progress_updated 1 1 ∉ (run id ⟨[⟨['x'], Listing.ok []⟩], ['t'], [['x']]⟩).2 := by
  decide

/-- C4, amended: a progress event `(i+1, foldersTotal)` is emitted exactly for
those enumerated directories at position `i` that are neither excluded nor
listing-errored, and that precede any scan-aborting listing failure; excluded
and errored directories still occupy enumeration positions (reflected in the
`current` of later events and in `total`) but emit no progress event of their
own. -/
theorem C4_progress_events (norm : List Char → List Char) (inp : ScanInput) :
    progressList (run norm inp).2 =
      ((List.enumFrom 0 (upToFatal inp.exclusion_list inp.all_dirs)).filter fun q =>
          !should_exclude_folder inp.exclusion_list q.2.path && isOkListing q.2.listing).map
        fun q => (q.1 + 1, inp.all_dirs.length) :=
  run_progress norm inp

/-- C10: only regular files participate in the presence check — deleting all
non-file entries from a listing never changes the result, so a subdirectory
whose name matches the target never causes the target to count as found. -/
theorem C10_only_files (fn : List Char) (entries : List Entry) :
    isFileFoundIn fn entries = isFileFoundIn fn (entries.filter fun e => e.is_file) := by
  induction entries with
  | nil => rfl
  | cons e es ih =>
    cases hf : e.is_file
    · rw [isFileFoundIn_cons, List.filter_cons]
      simp [hf, ih]
    · rw [isFileFoundIn_cons, List.filter_cons]
      simp [hf, isFileFoundIn_cons, ih]

/-- C5, counterexample: with two enumerated directories of which the last is
excluded, the run's final progress event is `(1, 2)`, not `(total, total)` as
the claim demands. -/
theorem C5_progress_monotone_cex :
    (⟨[⟨['a'], Listing.ok []⟩, ⟨['b'], Listing.ok []⟩], ['t'], [['b']]⟩ : ScanInput).all_dirs.length = 2 ∧
    (progressList (run id ⟨[⟨['a'], Listing.ok []⟩, ⟨['b'], Listing.ok []⟩], ['t'], [['b']]⟩).2) ≠ [] ∧
    (progressList (run id ⟨[⟨['a'], Listing.ok []⟩, ⟨['b'], Listing.ok []⟩], ['t'], [['b']]⟩).2).getLast? ≠
      some (2, 2) := by
  decide

/-- C5, amended: the `current` values of the progress events of a run are
monotonically non-decreasing and every event satisfies
`1 ≤ current ≤ total`; the final progress event has `current = total` when
the last enumerated directory is itself processed — not excluded, listed
without error — and no directory aborted the scan. -/
theorem C5_progress_monotone (norm : List Char → List Char) (inp : ScanInput) :
    (progressList (run norm inp).2).Pairwise (fun a b => a.1 ≤ b.1) ∧
    (∀ q ∈ progressList (run norm inp).2, 1 ≤ q.1 ∧ q.1 ≤ q.2) ∧
    (∀ d, inp.all_dirs.getLast? = some d →
      hasFatal inp.exclusion_list inp.all_dirs = false →
      should_exclude_folder inp.exclusion_list d.path = false →
      isOkListing d.listing = true →
      (progressList (run norm inp).2).getLast? =
        some (inp.all_dirs.length, inp.all_dirs.length)) := by
  rw [run_progress norm inp]
  refine ⟨?_, ?_, ?_⟩
  · refine List.pairwise_map.2 ?_
    have hp : (((List.enumFrom 0 (upToFatal inp.exclusion_list inp.all_dirs)).filter fun q =>
        !should_exclude_folder inp.exclusion_list q.2.path && isOkListing q.2.listing)).Pairwise
        fun a b => a.1 < b.1 :=
      (pairwise_enumFrom (upToFatal inp.exclusion_list inp.all_dirs) 0).sublist
        (List.filter_sublist _)
    exact hp.imp fun hab => by omega
  · intro q hq
    obtain ⟨q', hq', rfl⟩ := List.mem_map.1 hq
    have hmem := (List.mem_filter.1 hq').1
    have hb := mem_enumFrom_bounds _ 0 q' hmem
    have hlen := upToFatal_length_le inp.exclusion_list inp.all_dirs
    dsimp only
    omega
  · intro d hlast hnf hexc hok
    have hne : inp.all_dirs ≠ [] := by
      intro h0
      rw [h0] at hlast
      simp at hlast
    have hd : inp.all_dirs.getLast hne = d := by
      rw [List.getLast?_eq_getLast _ hne] at hlast
      exact Option.some.inj hlast
    have hdecomp : inp.all_dirs.dropLast ++ [d] = inp.all_dirs := by
      rw [← hd]
      exact List.dropLast_append_getLast hne
    rw [upToFatal_of_not_fatal _ hnf]
    rw [← hdecomp]
    rw [enumFrom_append, List.filter_append, List.map_append]
    simp [List.enumFrom, List.filter_cons, hexc, hok, List.getLast?_concat]

theorem C5_progress_monotone_witness :
    (1 ≤ 1 ∧ 1 ≤ 1) ∧
    (progressList (run id ⟨[⟨['a'], Listing.ok []⟩], ['t'], []⟩).2).getLast? = some (1, 1) :=
  ⟨(C5_progress_monotone id ⟨[⟨['a'], Listing.ok []⟩], ['t'], []⟩).2.1 (1, 1) (by decide),
   (C5_progress_monotone id ⟨[⟨['a'], Listing.ok []⟩], ['t'], []⟩).2.2 ⟨['a'], Listing.ok []⟩
     (by decide) (by decide) (by decide) (by decide)⟩

/-- C6: every completion event of a run carries exactly the number of
folder-found events the run emitted, which is the length of the
`missing_folders` accumulator. -/
theorem C6_completion_count (norm : List Char → List Char) (inp : ScanInput) (k : Nat)
    (h : Event.scan_completed k ∈ (run norm inp).2) :
    k = (folderFoundList (run norm inp).2).length ∧ k = (run norm inp).1.length := by
  have hk : k ∈ completionList (run norm inp).2 :=
    List.mem_filterMap.2 ⟨Event.scan_completed k, h, rfl⟩
  rw [run_completionList norm inp] at hk
  by_cases hf : hasFatal inp.exclusion_list inp.all_dirs = true
  · rw [if_pos hf] at hk
    exact absurd hk (by simp)
  · rw [Bool.not_eq_true] at hf
    rw [if_neg (by simp [hf])] at hk
    have hk' : k = (run norm inp).1.length := by simpa using hk
    rw [run_folderFound norm inp]
    exact ⟨hk', hk'⟩

theorem C6_completion_count_witness :
    (0 : Nat) = (folderFoundList (run id ⟨[], ['t'], []⟩).2).length ∧
    (0 : Nat) = (run id ⟨[], ['t'], []⟩).1.length :=
  C6_completion_count id ⟨[], ['t'], []⟩ 0 (by decide)

/-- C7, counterexample: a run whose only directory raises a
non-`PermissionError` listing failure emits no events at all — in particular
no completion event — so the claimed "followed by exactly one completion
event" shape fails. -/
theorem C7_event_order_cex :
    ¬ StrictEventOrder (run id ⟨[⟨['x'], Listing.fatalError⟩], ['a'], []⟩).2 := by
  rintro ⟨pre, k, hk, -⟩
  have hrun : (run id ⟨[⟨['x'], Listing.fatalError⟩], ['a'], []⟩).2 = [] := by decide
  rw [hrun] at hk
  exact absurd hk.symm (by simp)

/-- C7, amended: a run none of whose directories aborts the scan emits zero or
more interleaved progress and folder-found events followed by exactly one
completion event; a run aborted by a non-`PermissionError` listing failure
emits no completion event at all. -/
theorem C7_event_order (norm : List Char → List Char) (inp : ScanInput) :
    (hasFatal inp.exclusion_list inp.all_dirs = false → StrictEventOrder (run norm inp).2) ∧
    (hasFatal inp.exclusion_list inp.all_dirs = true → completionList (run norm inp).2 = []) := by
  constructor
  · intro h
    refine ⟨(runLoop norm inp.filename inp.exclusion_list inp.all_dirs.length 0 inp.all_dirs).2.1,
      (runLoop norm inp.filename inp.exclusion_list inp.all_dirs.length 0 inp.all_dirs).1.length,
      ?_, ?_⟩
    · unfold run
      dsimp only
      rw [runLoop_fatal norm inp.filename inp.exclusion_list _ 0 inp.all_dirs, h]
      simp
    · intro e he
      exact runLoop_shape norm inp.filename inp.exclusion_list _ 0 inp.all_dirs e he
  · intro h
    unfold run
    dsimp only
    rw [runLoop_fatal norm inp.filename inp.exclusion_list _ 0 inp.all_dirs, h]
    simpa using runLoop_completion norm inp.filename inp.exclusion_list _ 0 inp.all_dirs

theorem C7_event_order_witness :
    StrictEventOrder (run id ⟨[⟨['a'], Listing.ok []⟩], ['t'], []⟩).2 ∧
    completionList (run id ⟨[⟨['b'], Listing.fatalError⟩], ['t'], []⟩).2 = [] :=
  ⟨(C7_event_order id ⟨[⟨['a'], Listing.ok []⟩], ['t'], []⟩).1 (by decide),
   (C7_event_order id ⟨[⟨['b'], Listing.fatalError⟩], ['t'], []⟩).2 (by decide)⟩

/-- C8, counterexample: a directory whose listing fails with an I/O error that
is not a `PermissionError` does not leave the scan completing normally — the
run emits no completion event, against the claim's "continues with the
remaining directories and completes normally". -/
theorem C8_permission_skip_cex :
    isOkListing (⟨['x'], Listing.fatalError⟩ : DirectoryRecord).listing = false ∧
    completionList (run id ⟨[⟨['x'], Listing.fatalError⟩], ['t'], []⟩).2 = [] := by
  decide

/-- C8, amended: directory listings failing with `PermissionError` are skipped
locally — deleting those directories from the enumeration leaves the
missing-folder result unchanged — and, provided no directory fails with any
other exception, the scan completes normally with exactly one completion
event; any non-`PermissionError` listing failure instead aborts the run
without a completion event. -/
theorem C8_permission_skip (norm : List Char → List Char) (fn : List Char)
    (excl : List (List Char)) (ds : List DirectoryRecord)
    (h : hasFatal excl ds = false) :
    (run norm ⟨ds, fn, excl⟩).1 =
      (run norm ⟨ds.filter fun d => !isPermListing d.listing, fn, excl⟩).1 ∧
    completionList (run norm ⟨ds, fn, excl⟩).2 = [(run norm ⟨ds, fn, excl⟩).1.length] := by
  have h2 : hasFatal excl (ds.filter fun d => !isPermListing d.listing) = false := by
    by_contra hc
    rw [Bool.not_eq_false] at hc
    obtain ⟨d, hd, hab⟩ := List.any_eq_true.1 hc
    have hds : hasFatal excl ds = true :=
      List.any_eq_true.2 ⟨d, (List.mem_filter.1 hd).1, hab⟩
    rw [h] at hds
    cases hds
  constructor
  · rw [run_missing norm ⟨ds, fn, excl⟩, run_missing norm ⟨_, fn, excl⟩]
    unfold specMissingFolders
    dsimp only
    rw [upToFatal_of_not_fatal _ h, upToFatal_of_not_fatal _ h2]
    rw [List.filter_filter]
    congr 1
    apply List.filter_congr
    intro d _
    cases hL : d.listing <;> simp [isMissingHere, isPermListing, hL]
  · rw [run_completionList norm ⟨ds, fn, excl⟩]
    rw [if_neg (by simp [h])]

theorem C8_permission_skip_witness :
    (run id ⟨[⟨['p'], Listing.permissionError⟩, ⟨['q'], Listing.ok []⟩], ['t'], []⟩).1 =
      (run id ⟨[⟨['p'], Listing.permissionError⟩, ⟨['q'], Listing.ok []⟩].filter
          (fun d => !isPermListing d.listing), ['t'], []⟩).1 ∧
    completionList (run id ⟨[⟨['p'], Listing.permissionError⟩, ⟨['q'], Listing.ok []⟩], ['t'], []⟩).2 =
      [(run id ⟨[⟨['p'], Listing.permissionError⟩, ⟨['q'], Listing.ok []⟩], ['t'], []⟩).1.length] :=
  C8_permission_skip id ['t'] [] [⟨['p'], Listing.permissionError⟩, ⟨['q'], Listing.ok []⟩]
    (by decide)

/-- C9, counterexample: `.gitignore` contains a `.`, so the claim demands the
extension-stripped name be everything before the last dot (the empty string),
but the code keeps the whole name. -/
theorem C9_splitext_cex :
    '.' ∈ ['.', 'g', 'i', 't', 'i', 'g', 'n', 'o', 'r', 'e'] ∧
    splitextRoot ['.', 'g', 'i', 't', 'i', 'g', 'n', 'o', 'r', 'e'] ≠
      specStripExt ['.', 'g', 'i', 't', 'i', 'g', 'n', 'o', 'r', 'e'] := by
  decide

/-- C9, amended: the extension-stripped name equals everything before the last
`.` when some character before that dot is not itself a dot; otherwise — no
dot at all, or only dots in front of the last dot, as in `.gitignore` — it
equals the whole name. -/
theorem C9_splitext (p : List Char) :
    ('.' ∉ p → splitextRoot p = p) ∧
    ∀ d, LastDotAt p d →
      splitextRoot p = if (p.take d).all (fun c => c == '.') then p else p.take d := by
  constructor
  · intro h
    unfold splitextRoot
    rw [rfindIdx_eq_none h]
  · intro d hd
    unfold splitextRoot
    rw [rfindIdx_of_lastDot p d hd]
    exact splitextScan_eq p d (p.take d)

theorem C9_splitext_witness :
    splitextRoot ['f', 'o', 'o'] = ['f', 'o', 'o'] ∧ splitextRoot ['a', '.', 'b'] = ['a'] := by
  constructor
  · exact (C9_splitext ['f', 'o', 'o']).1 (by decide)
  · exact ((C9_splitext ['a', '.', 'b']).2 1 (by decide)).trans (by decide)

end MissingFileReport
